import Mathlib

/-!
# gmail-cli: the message builder, the token cache and the control flow of `main`

A shallow embedding of `src/main.go`.  Go strings and byte slices are lists of
bytes.  The Go standard library functions that the message builder runs
through (`encoding/base64`, `fmt.Fprintf`, `io.Copy`) are embedded from their
Go sources.  The formatting of a mail address, the iteration order of a Go map
and the outcomes of the I/O calls are inputs of the model (`Env`); Go's
address formatting is embedded as well and used where a concrete rendering is
computed.
-/

set_option linter.dupNamespace false
set_option linter.unusedVariables false
set_option maxRecDepth 100000

namespace GmailCli

/-! ## Bytes and strings -/

/-- A Go `byte`. -/
abbrev Byte := Fin 256

/-- A Go `string` or `[]byte`: a sequence of bytes. -/
abbrev Str := List Byte

/-- The bytes of an ASCII string literal of the source. -/
def bytes (s : String) : Str := s.toList.map (fun c => Fin.ofNat c.toNat)

/-- The Go conversion `byte(x)` of an unsigned integer: truncation to eight bits. -/
def toByte (x : Nat) : Byte := Fin.ofNat (x % 256)

/-- The line terminator `"\r\n"`. -/
def CRLF : Str := [13, 10]

/-! ## encoding/base64: `RawURLEncoding` -/

/-- The alphabet `encodeURL` of `base64.URLEncoding`. -/
def encodeURL : Str :=
  bytes "ABCDEFGHIJKLMNOPQRSTUVWXYZabcdefghijklmnopqrstuvwxyz0123456789-_"

/-- The table lookup `enc.encode[i]`. -/
def encChar (i : Nat) : Byte := encodeURL.getD i 0

/-- The table lookup `enc.decodeMap[c]`: the index of `c` in the alphabet, and
`0xFF` for a byte outside of it. -/
def decodeMap (c : Byte) : Nat :=
  if c ∈ encodeURL then encodeURL.indexOf c else 255

/-- Go's `(*Encoding).Encode` for `RawURLEncoding` (no padding character): every
three source bytes give four characters, a remainder of two bytes gives three
characters and a remainder of one byte gives two. -/
def Encode : Str → Str
  | b0 :: b1 :: b2 :: rest =>
      let val := b0.val <<< 16 ||| b1.val <<< 8 ||| b2.val
      encChar (val >>> 18 &&& 63) :: encChar (val >>> 12 &&& 63) ::
        encChar (val >>> 6 &&& 63) :: encChar (val &&& 63) :: Encode rest
  | [b0, b1] =>
      let val := b0.val <<< 16 ||| b1.val <<< 8
      [encChar (val >>> 18 &&& 63), encChar (val >>> 12 &&& 63), encChar (val >>> 6 &&& 63)]
  | [b0] =>
      let val := b0.val <<< 16
      [encChar (val >>> 18 &&& 63), encChar (val >>> 12 &&& 63)]
  | [] => []

/-- Go's `(*Encoding).EncodedLen` for an encoding without padding. -/
def EncodedLen (n : Nat) : Nat := n / 3 * 4 + (n % 3 * 8 + 5) / 6

/-- The quanta of `(*Encoding).Decode` on a list of six-bit digits: four digits
give three bytes, a final group of three digits gives two bytes and of two
digits one byte (the encoding is not strict, left-over bits are dropped); a
final single digit is a `CorruptInputError`. -/
def decodeQuanta : List Nat → Option Str
  | d0 :: d1 :: d2 :: d3 :: rest =>
      let val := d0 <<< 18 ||| d1 <<< 12 ||| d2 <<< 6 ||| d3
      (decodeQuanta rest).map
        (fun t => toByte (val >>> 16) :: toByte (val >>> 8) :: toByte val :: t)
  | [d0, d1, d2] =>
      let val := d0 <<< 18 ||| d1 <<< 12 ||| d2 <<< 6
      some [toByte (val >>> 16), toByte (val >>> 8)]
  | [d0, d1] =>
      let val := d0 <<< 18 ||| d1 <<< 12
      some [toByte (val >>> 16)]
  | [_] => none
  | [] => some []

/-- Go's `(*Encoding).DecodeString` for `RawURLEncoding`: carriage returns and line
feeds are skipped, any other byte outside the alphabet (the padding character
`=` included) is a `CorruptInputError`, here `none`. -/
def DecodeString (s : Str) : Option Str :=
  let t := s.filter (fun c => c ≠ 10 ∧ c ≠ 13)
  if t.all (fun c => decodeMap c ≠ 255) then decodeQuanta (t.map decodeMap) else none

/-! ### The streaming encoder `base64.NewEncoder(base64.RawURLEncoding, &buf)` -/

/-- The state of the `encoder` struct writing to a `bytes.Buffer`: `buf` holds
the `nbuf` bytes of `e.buf` that wait to be encoded, `w` is the content of the
buffer written so far.  Writing to a `bytes.Buffer` never returns an error, so
`e.err` stays `nil`. -/
structure Encoder where
  buf : Str
  w : Str
deriving DecidableEq, Repr

/-- The encoder `base64.NewEncoder` returns. -/
def NewEncoder : Encoder := ⟨[], []⟩

/-- The loop "large interior chunks" of `(*encoder).Write`: while at least
three bytes are left, encode the longest prefix whose length is a multiple of
three and at most `len(e.out)/4*3 = 768`.  Returns the buffer content and the
bytes that are left. -/
def interior (w p : Str) : Str × Str :=
  if _h : p.length ≥ 3 then
    let nn := if 768 > p.length then p.length - p.length % 3 else 768
    interior (w ++ Encode (p.take nn)) (p.drop nn)
  else (w, p)
termination_by p.length
decreasing_by
  simp only [List.length_drop]
  split <;> omega

/-- Go's `(*encoder).Write`: the leading fringe completes a pending group, the
interior loop encodes whole groups, the trailing fringe keeps up to two bytes. -/
def Encoder.Write (e : Encoder) (p : Str) : Encoder :=
  if e.buf.length > 0 then
    let i := min p.length (3 - e.buf.length)
    let buf := e.buf ++ p.take i
    let p := p.drop i
    if buf.length < 3 then ⟨buf, e.w⟩
    else
      let r := interior (e.w ++ Encode buf) p
      ⟨r.2, r.1⟩
  else
    let r := interior e.w p
    ⟨r.2, r.1⟩

/-- Go's `(*encoder).Close`: flushes the pending bytes, without padding. -/
def Encoder.Close (e : Encoder) : Encoder :=
  if e.buf.length > 0 then ⟨[], e.w ++ Encode e.buf⟩ else e

/-! ## net/mail: `(*Address).String` -/

/-- The struct `mail.Address`. -/
structure Address where
  Name : Str
  Address : Str
deriving DecidableEq, Repr

/-- The function `isMultibyte` of net/mail, on a byte of a UTF-8 string: the
byte belongs to a rune of more than one byte. -/
def isMultibyte (c : Byte) : Bool := 128 ≤ c.val

/-- The function `isVchar` of net/mail: the visible ASCII characters `!` to
`~`, and the multibyte runes. -/
def isVchar (c : Byte) : Bool := (33 ≤ c.val && c.val ≤ 126) || isMultibyte c

/-- The function `isWSP` of net/mail: space and tab. -/
def isWSP (c : Byte) : Bool := c = 32 || c = 9

/-- The function `isQtext` of net/mail: visible, and neither backslash nor double quote. -/
def isQtext (c : Byte) : Bool := if c = 92 ∨ c = 34 then false else isVchar c

/-- The function `isAtext(r, false)` of net/mail: visible, not a dot and not one of the
specials `( ) < > [ ] : ; @ \ , "`. -/
def isAtext (c : Byte) : Bool :=
  if c = 46 then false
  else if c ∈ bytes "()<>[]:;@\\,\"" then false
  else isVchar c

/-- The function `quoteString` of net/mail: the string between double quotes, a backslash
before each visible character that is not qtext, other characters dropped. -/
def quoteString (s : Str) : Str :=
  [34] ++ (s.map (fun c =>
    if isQtext c || isWSP c then [c] else if isVchar c then [92, c] else [])).flatten ++ [34]

/-- The loop of `(*Address).String` that decides whether the local part is
quoted: `prev` is the byte before the current one, if any.  A dot is fine
between two bytes when the byte before it is not a dot. -/
def needsQuote : Option Byte → Str → Bool
  | _, [] => false
  | prev, c :: rest =>
      if isAtext c then needsQuote (some c) rest
      else if c = 46 ∧ prev.isSome ∧ prev ≠ some 46 ∧ rest ≠ [] then needsQuote (some c) rest
      else true

/-- Go's `strings.LastIndex(s, "@")` as the split it is used for: the bytes before
and after the last `@`, or `none` when there is no `@`. -/
def splitLastAt : Str → Option (Str × Str)
  | [] => none
  | c :: rest =>
      match splitLastAt rest with
      | some (l, d) => some (c :: l, d)
      | none => if c = 64 then some ([], rest) else none

/-- Go's `(*Address).String` of net/mail, for names and addresses that are
valid UTF-8 (the library works on runes, here every byte of a multibyte rune is
classified like the rune).  A name with a character that is neither visible
ASCII nor space or tab is rendered by the library as an RFC 2047 encoded word;
that rendering is the parameter `encodedWord`. -/
def goAddressString (encodedWord : Str → Str) (a : Address) : Str :=
  let (loc, domain) :=
    match splitLastAt a.Address with
    | some (l, d) => (l, d)
    | none => (a.Address, [])
  let loc := if needsQuote none loc then quoteString loc else loc
  let s := bytes "<" ++ loc ++ bytes "@" ++ domain ++ bytes ">"
  if a.Name = [] then s
  else if a.Name.all (fun c => !((!isVchar c && !isWSP c) || isMultibyte c)) then
    quoteString a.Name ++ bytes " " ++ s
  else encodedWord a.Name ++ bytes " " ++ s

/-! ## The program -/

/-- The value `log.Fatalf` ends the process with: exit status 1 after the
message, or the normal return of a function. -/
inductive Outcome (α : Type) where
  | ret (a : α)
  | fatal (msg : Str)
deriving DecidableEq, Repr

/-- The command line after `flag.Parse()`: the five string flags (each `""`
when absent) and the positional arguments `flag.Args()`. -/
structure Flags where
  fromName : Str
  fromEmail : Str
  toName : Str
  toEmail : Str
  subject : Str
  args : List Str
deriving DecidableEq, Repr

/-- What reading a body source to its end gives `io.Copy`: the chunks of the
successive reads, and whether the reads end with an error instead of EOF. -/
structure ReadResult where
  chunks : List Str
  err : Bool
deriving DecidableEq, Repr

/-- The serialized fields of `oauth2.Token`. -/
structure Token where
  AccessToken : Str
  TokenType : Str
  RefreshToken : Str
  Expiry : Str
deriving DecidableEq, Repr

/-- The `oauth2.Config` parsed from the client secret file. -/
structure Config where
  secret : Str
deriving DecidableEq, Repr

/-- The `http.Client` of `config.Client(ctx, tok)`. -/
structure Client where
  config : Config
  tok : Option Token
deriving DecidableEq, Repr

/-- The I/O the program performs: a message printed (its text without the
formatted error or URL), a file opened for reading, the body read by
`io.Copy`, the console read of `fmt.Scan`, the token exchange, a file opened
for writing, the send call. -/
inductive Event where
  | print (msg : Str)
  | openRead (path : Str)
  | readBody
  | scanCode
  | exchange (code : Str)
  | openWrite (path : Str)
  | send (user : Str) (raw : Str)
deriving DecidableEq, Repr

/-- The state the program acts on: the files of the token cache and of the
client secret (`none`: the path cannot be opened for reading) and the I/O done
so far, the most recent event last. -/
structure Sys where
  fs : Str → Option Str
  trace : List Event

/-- Records an event. -/
def Sys.log (s : Sys) (ev : Event) : Sys := ⟨s.fs, s.trace ++ [ev]⟩

/-- The behaviour of the libraries and of the outside world that the program
depends on and that `src/main.go` does not define. -/
structure Env where
  /-- Go's `(*mail.Address).String`. -/
  addrString : Address → Str
  /-- The order in which `range header` visits the entries of the map. -/
  mapRange : List (Str × Str) → List (Str × Str)
  /-- The call `os.Open(fname)` of the body file and the reads `io.Copy` makes from it;
  `none` when the open fails. -/
  openBody : Str → Option ReadResult
  /-- The reads `io.Copy` makes from `os.Stdin`. -/
  stdin : ReadResult
  /-- The path `path.Join(os.Getenv("HOME"), ".gmail-cli-credentials.json")`. -/
  credentials : Str
  /-- The path `path.Join(os.Getenv("HOME"), ".gmail-cli-token.json")`. -/
  tokFile : Str
  /-- The call `google.ConfigFromJSON(b, gmail.GmailSendScope)`, `none` on an error. -/
  configFromJSON : Str → Option Config
  /-- The call `json.NewDecoder(f).Decode(tok)`: the token value after the call and
  whether it returned an error. -/
  jsonDecode : Str → Token × Bool
  /-- The call `fmt.Scan(&authCode)`, `none` on an error. -/
  scan : Option Str
  /-- The call `config.Exchange(ctx, authCode)`, `none` on an error. -/
  exchange : Config → Str → Option Token
  /-- Whether `os.OpenFile(path, O_RDWR|O_CREATE|O_TRUNC, 0600)` succeeds. -/
  openWrite : Str → Bool
  /-- The call `json.NewEncoder(f).Encode(token)`: the bytes that reach the file and
  whether the call returned an error. -/
  jsonEncode : Token → Str × Bool
  /-- Whether `gmail.New(client)` succeeds. -/
  gmailNew : Client → Bool
  /-- Whether `srv.Users.Messages.Send(user, &gmsg).Do()` succeeds. -/
  send : Str → Str → Bool

/-- The function `tokenFromFile`: opens the file read-only and decodes its JSON content.
Returns the token pointer (`none` for `nil`) and whether `err` is non-nil. -/
def tokenFromFile (env : Env) (file : Str) (s : Sys) : (Option Token × Bool) × Sys :=
  let s1 := s.log (.openRead file)
  match s.fs file with
  | none => ((none, true), s1)
  | some content =>
      let r := env.jsonDecode content
      ((some r.1, r.2), s1)

/-- The function `saveToken`: opens the file for writing, truncating it, and encodes the
token into it.  The result of `Encode` is not looked at. -/
def saveToken (env : Env) (path : Str) (token : Token) (s : Sys) : Outcome Unit × Sys :=
  let s1 := s.log (.print (bytes "Saving credential file to: " ++ path ++ bytes "\n"))
  let s2 := s1.log (.openWrite path)
  if env.openWrite path then
    let written := (env.jsonEncode token).1
    (.ret (), ⟨fun p => if p = path then some written else s2.fs p, s2.trace⟩)
  else (.fatal (bytes "Unable to cache oauth token"), s2)

/-- The function `getTokenFromWeb`: prints the authorization URL, reads the code from the
console and exchanges it for a token. -/
def getTokenFromWeb (env : Env) (config : Config) (s : Sys) : Outcome Token × Sys :=
  let s1 := s.log (.print (bytes "Go to the following link in your browser then type the authorization code: \n"))
  let s2 := s1.log .scanCode
  match env.scan with
  | none => (.fatal (bytes "Unable to read authorization code"), s2)
  | some authCode =>
      let s3 := s2.log (.exchange authCode)
      match env.exchange config authCode with
      | none => (.fatal (bytes "Unable to retrieve token from web"), s3)
      | some tok => (.ret tok, s3)

/-- The function `getClient`: the cached token, or else a token from the web that is then
saved. -/
def getClient (env : Env) (config : Config) (s : Sys) : Outcome Client × Sys :=
  let r := tokenFromFile env env.tokFile s
  if r.1.2 then
    let s1 := r.2.log (.print (bytes "Error reading token from file"))
    match getTokenFromWeb env config s1 with
    | (.fatal m, s2) => (.fatal m, s2)
    | (.ret tok, s2) =>
        match saveToken env env.tokFile tok s2 with
        | (.fatal m, s3) => (.fatal m, s3)
        | (.ret _, s3) => (.ret ⟨config, some tok⟩, s3)
  else (.ret ⟨config, r.1.1⟩, r.2)

/-- The function `getGmail`: reads the client secret, builds the client and the service. -/
def getGmail (env : Env) (s : Sys) : Outcome Client × Sys :=
  let s1 := s.log (.openRead env.credentials)
  match s.fs env.credentials with
  | none => (.fatal (bytes "Unable to read client secret file"), s1)
  | some b =>
      match env.configFromJSON b with
      | none => (.fatal (bytes "Unable to parse client secret file to config"), s1)
      | some config =>
          match getClient env config s1 with
          | (.fatal m, s2) => (.fatal m, s2)
          | (.ret client, s2) =>
              if env.gmailNew client then (.ret client, s2)
              else (.fatal (bytes "Unable to retrieve Gmail client"), s2)

/-- The map `header` of `main`, as the list of its six entries. -/
def header (env : Env) (fl : Flags) : List (Str × Str) :=
  let fromName := if fl.fromName = [] then fl.fromEmail else fl.fromName
  let toName := if fl.toName = [] then fl.toEmail else fl.toName
  let fromAddr : Address := ⟨fromName, fl.fromEmail⟩
  let toAddr : Address := ⟨toName, fl.toEmail⟩
  [(bytes "From", env.addrString fromAddr),
   (bytes "To", env.addrString toAddr),
   (bytes "MIME-Version", bytes "1.0"),
   (bytes "Content-Type", bytes "text/plain; charset=\"utf-8\""),
   (bytes "Content-Transfer-Encoding", bytes "base64"),
   (bytes "Subject", fl.subject)]

/-- The bytes `fmt.Fprintf(encoder, "%s: %s\r\n", k, v)` passes to the
encoder in one `Write`. -/
def headerLine (kv : Str × Str) : Str := kv.1 ++ bytes ": " ++ kv.2 ++ bytes "\r\n"

/-- The header lines in the order `main` writes them. -/
def headerLines (env : Env) (fl : Flags) : List Str :=
  (env.mapRange (header env fl)).map headerLine

/-- The encoder after the loop over the header and the `"\r\n"` that ends the
header block (lines 136 to 146). -/
def writeHeaders (env : Env) (fl : Flags) : Encoder :=
  ((headerLines env fl).foldl Encoder.Write NewEncoder).Write (bytes "\r\n")

/-- The string `base64encBuff.String()` of `gmsg.Raw` when `io.Copy` passes
the body to the encoder in the given chunks (lines 136 to 169). -/
def Raw (env : Env) (fl : Flags) (chunks : List Str) : Str :=
  ((chunks.foldl Encoder.Write (writeHeaders env fl)).Close).w

/-- The body source of `main`: the file named by the first positional
argument, or standard input; `none` when the file cannot be opened. -/
def bodySource (env : Env) (fl : Flags) : Option ReadResult :=
  match fl.args with
  | fname :: _ => env.openBody fname
  | [] => some env.stdin

/-- The part of `main` that builds the message (lines 102 to 169): the
validation of the flags, the header, the body and the encoding.  Returns
`gmsg.Raw`. -/
def buildMessage (env : Env) (fl : Flags) (s : Sys) : Outcome Str × Sys :=
  if fl.fromEmail = [] then (.fatal (bytes "fromEmail is empty"), s)
  else if fl.toEmail = [] then (.fatal (bytes "toEmail is empty"), s)
  else
    let s1 := match fl.args with
      | fname :: _ => s.log (.openRead fname)
      | [] => s
    match bodySource env fl with
    | none => (.fatal (bytes "Failed to open file"), s1)
    | some r =>
        let s2 := s1.log .readBody
        if r.err then (.fatal (bytes "Error reading body"), s2)
        else (.ret (Raw env fl r.chunks), s2)

/-- The function `main`. -/
def main (env : Env) (fl : Flags) (s : Sys) : Outcome Unit × Sys :=
  match buildMessage env fl s with
  | (.fatal m, s1) => (.fatal m, s1)
  | (.ret raw, s1) =>
      match getGmail env s1 with
      | (.fatal m, s2) => (.fatal m, s2)
      | (.ret _, s2) =>
          let s3 := s2.log (.send (bytes "me") raw)
          if env.send (bytes "me") raw then (.ret (), s3)
          else (.fatal (bytes "Unable to send msg"), s3)

/-! ## Reading a message back: the blank line and the header block -/

/-- The string contains a CR immediately followed by an LF. -/
def hasCRLF : Str → Bool
  | c :: d :: rest => (c = 13 ∧ d = 10) || hasCRLF (d :: rest)
  | _ => false

/-- Splits a message at its first blank line, the first occurrence of
CR LF CR LF: the bytes before it and the bytes after it; `none` when the
message has no blank line. -/
def splitBlankLine : Str → Option (Str × Str)
  | [] => none
  | c :: rest =>
      if (c :: rest).take 4 = [13, 10, 13, 10] then some ([], rest.drop 3)
      else (splitBlankLine rest).map (fun r => (c :: r.1, r.2))

/-- The lines of a header block: the block split at every CR LF, scanning
from the left. -/
def splitCRLF : Str → List Str
  | c :: d :: rest =>
      if c = 13 ∧ d = 10 then [] :: splitCRLF rest
      else
        match splitCRLF (d :: rest) with
        | l :: ls => (c :: l) :: ls
        | [] => [[c]]
  | [c] => [[c]]
  | [] => [[]]

/-- A header line split at its first colon and space into name and value. -/
def splitColon : Str → Option (Str × Str)
  | c :: d :: rest =>
      if c = 58 ∧ d = 32 then some ([], rest)
      else (splitColon (d :: rest)).map (fun r => (c :: r.1, r.2))
  | _ => none

/-! ## A concrete run: the scenario of the specification -/

/-- An environment for the scenario: Go's address formatting (the encoded
word, which no name of the scenario needs, left as the name), the header
visited in insertion order, `hello` on standard input in one read, no token
cache and no client secret on disk. -/
def scenarioEnv : Env where
  addrString := goAddressString (fun name => name)
  mapRange := fun m => m
  openBody := fun _ => none
  stdin := ⟨[bytes "hello"], false⟩
  credentials := bytes "/home/u/.gmail-cli-credentials.json"
  tokFile := bytes "/home/u/.gmail-cli-token.json"
  configFromJSON := fun b => some ⟨b⟩
  jsonDecode := fun _ => (⟨[], [], [], []⟩, true)
  scan := none
  exchange := fun _ _ => none
  openWrite := fun _ => true
  jsonEncode := fun t => (t.AccessToken, false)
  gmailNew := fun _ => true
  send := fun _ _ => true

/-- The scenario on a full disk: the token cache opens for writing and the
write of `Encode` fails, nothing reaches the file. -/
def fullDiskEnv : Env := { scenarioEnv with jsonEncode := fun _ => ([], true) }

/-- The flags `--from-email a@x.com --to-email b@y.com --subject Hi`. -/
def scenarioFlags : Flags where
  fromName := []
  fromEmail := bytes "a@x.com"
  toName := []
  toEmail := bytes "b@y.com"
  subject := bytes "Hi"
  args := []

/-- The flags of the scenario with a subject that contains a blank line,
`Hi` CR LF CR LF `X`. -/
def blankLineFlags : Flags := { scenarioFlags with subject := bytes "Hi\r\n\r\nX" }

/-- The flags of the scenario with a subject that carries a second header
line, `Hi` CR LF `From: evil@z.com`. -/
def injectedFromFlags : Flags :=
  { scenarioFlags with subject := bytes "Hi\r\nFrom: evil@z.com" }

/-- A state with no files and no I/O done. -/
def emptySys : Sys := ⟨fun _ => none, []⟩

/-! ### Auxiliary definitions for the proofs -/

/-- The six-bit digits `Encode` looks up in the alphabet. -/
def sextets : Str → List Nat
  | b0 :: b1 :: b2 :: rest =>
      let val := b0.val * 65536 + b1.val * 256 + b2.val
      (val / 262144 % 64) :: (val / 4096 % 64) :: (val / 64 % 64) :: (val % 64) :: sextets rest
  | [b0, b1] =>
      let val := b0.val * 65536 + b1.val * 256
      [val / 262144 % 64, val / 4096 % 64, val / 64 % 64]
  | [b0] =>
      let val := b0.val * 65536
      [val / 262144 % 64, val / 4096 % 64]
  | [] => []

/-- The encoder `e` is in the state reached after the bytes `s` were written to
a new encoder: a prefix of `s` of a length divisible by three is encoded in the
buffer and the up to two bytes that follow it are pending. -/
def Encoder.Wrote (e : Encoder) (s : Str) : Prop :=
  ∃ a : Str, s = a ++ e.buf ∧ a.length % 3 = 0 ∧ e.w = Encode a ∧ e.buf.length < 3

/-! ## Lemmas on the base64 encoding -/

theorem shl_or3 (a b c : Nat) (hb : b < 256) (hc : c < 256) :
    (a <<< 16 ||| b <<< 8 ||| c) = a * 65536 + b * 256 + c := by
  have h1 : a <<< 16 ||| b <<< 8 = 2 ^ 16 * a + b * 256 := by
    rw [Nat.shiftLeft_eq, Nat.shiftLeft_eq]
    have : b * 2 ^ 8 < 2 ^ 16 := by omega
    rw [Nat.mul_comm a (2 ^ 16)]
    exact (Nat.mul_add_lt_is_or this a).symm
  rw [h1]
  have h2 : 2 ^ 16 * a + b * 256 = 2 ^ 8 * (a * 256 + b) := by omega
  rw [h2, ← Nat.mul_add_lt_is_or (by omega : c < 2 ^ 8)]
  omega

theorem shr_and63 (v n : Nat) : v >>> n &&& 63 = v / 2 ^ n % 64 := by
  rw [Nat.shiftRight_eq_div_pow]
  exact Nat.and_pow_two_sub_one_eq_mod _ 6

theorem and63 (v : Nat) : v &&& 63 = v % 64 :=
  Nat.and_pow_two_sub_one_eq_mod _ 6

theorem shl_or4 (a b c d : Nat) (hb : b < 64) (hc : c < 64) (hd : d < 64) :
    (a <<< 18 ||| b <<< 12 ||| c <<< 6 ||| d) = a * 262144 + b * 4096 + c * 64 + d := by
  have h1 : a <<< 18 ||| b <<< 12 = 2 ^ 18 * a + b * 4096 := by
    rw [Nat.shiftLeft_eq, Nat.shiftLeft_eq]
    have : b * 2 ^ 12 < 2 ^ 18 := by omega
    rw [Nat.mul_comm a (2 ^ 18)]
    exact (Nat.mul_add_lt_is_or this a).symm
  rw [h1]
  have h2 : 2 ^ 18 * a + b * 4096 ||| c <<< 6 = 2 ^ 12 * (a * 64 + b) + c * 64 := by
    rw [Nat.shiftLeft_eq]
    have : c * 2 ^ 6 < 2 ^ 12 := by omega
    have e : 2 ^ 18 * a + b * 4096 = 2 ^ 12 * (a * 64 + b) := by omega
    rw [e]
    exact (Nat.mul_add_lt_is_or this _).symm
  rw [h2]
  have h3 : 2 ^ 12 * (a * 64 + b) + c * 64 = 2 ^ 6 * (a * 4096 + b * 64 + c) := by omega
  rw [h3, ← Nat.mul_add_lt_is_or (by omega : d < 2 ^ 6)]
  omega


theorem decodeMap_encChar (i : Nat) (h : i < 64) : decodeMap (encChar i) = i := by
  revert i; decide

theorem encChar_mem (i : Nat) (h : i < 64) : encChar i ∈ encodeURL := by
  revert i; decide

theorem decodeMap_ne_of_mem (c : Byte) (h : c ∈ encodeURL) : decodeMap c ≠ 255 := by
  revert c; decide

theorem not_crlf_of_mem (c : Byte) (h : c ∈ encodeURL) : c ≠ 10 ∧ c ≠ 13 := by
  revert c; decide

theorem shl_or2 (a b : Nat) (hb : b < 256) :
    (a <<< 16 ||| b <<< 8) = a * 65536 + b * 256 := by
  rw [Nat.shiftLeft_eq, Nat.shiftLeft_eq]
  have : b * 2 ^ 8 < 2 ^ 16 := by omega
  rw [Nat.mul_comm a (2 ^ 16), ← Nat.mul_add_lt_is_or this a]
  omega

theorem Encode_eq_map (l : Str) : Encode l = (sextets l).map encChar := by
  induction l using sextets.induct with
  | case1 b0 b1 b2 rest ih =>
    simp only [Encode, sextets, List.map_cons, ih]
    rw [shr_and63, shr_and63, shr_and63, and63, shl_or3 _ _ _ b1.isLt b2.isLt]
    rfl
  | case2 b0 b1 =>
    simp only [Encode, sextets, List.map_cons, List.map_nil]
    rw [shr_and63, shr_and63, shr_and63, shl_or2 _ _ b1.isLt]
    rfl
  | case3 b0 =>
    simp only [Encode, sextets, List.map_cons, List.map_nil]
    rw [shr_and63, shr_and63, Nat.shiftLeft_eq]
    rfl
  | case4 => rfl

theorem sextets_lt (l : Str) : ∀ d ∈ sextets l, d < 64 := by
  induction l using sextets.induct with
  | case1 b0 b1 b2 rest ih =>
    intro d hd
    simp only [sextets, List.mem_cons] at hd
    rcases hd with h | h | h | h | h
    · omega
    · omega
    · omega
    · omega
    · exact ih d h
  | case2 b0 b1 =>
    intro d hd
    simp only [sextets, List.mem_cons, List.mem_singleton, List.not_mem_nil, or_false] at hd
    omega
  | case3 b0 =>
    intro d hd
    simp only [sextets, List.mem_cons, List.mem_singleton, List.not_mem_nil, or_false] at hd
    omega
  | case4 => simp [sextets]

theorem toByte_val (b : Byte) : toByte b.val = b := by
  apply Fin.ext
  simp [toByte, Fin.ofNat, Nat.mod_eq_of_lt b.isLt]

theorem shl18_or3 (a b c : Nat) (hb : b < 64) (hc : c < 64) :
    (a <<< 18 ||| b <<< 12 ||| c <<< 6) = a * 262144 + b * 4096 + c * 64 := by
  have h := shl_or4 a b c 0 hb hc (by omega)
  rw [Nat.or_zero] at h
  omega

theorem shl18_or2 (a b : Nat) (hb : b < 64) :
    (a <<< 18 ||| b <<< 12) = a * 262144 + b * 4096 := by
  have h := shl18_or3 a b 0 hb (by omega)
  rw [Nat.zero_shiftLeft, Nat.or_zero] at h
  omega

theorem decodeQuanta_sextets (l : Str) : decodeQuanta (sextets l) = some l := by
  induction l using sextets.induct with
  | case1 b0 b1 b2 rest ih =>
    have h0 := b0.isLt
    have h1 := b1.isLt
    have h2 := b2.isLt
    simp only [sextets, decodeQuanta, ih, Option.map_some']
    rw [shl_or4 _ _ _ _ (by omega) (by omega) (by omega)]
    simp only [Nat.shiftRight_eq_div_pow]
    have e0 : ∀ v, v = b0.val → toByte v = b0 := fun v h => h ▸ toByte_val b0
    have e1 : ∀ v, v % 256 = b1.val → toByte v = b1 := by
      intro v h; rw [← toByte_val b1, ← h]; simp [toByte]
    have e2 : ∀ v, v % 256 = b2.val → toByte v = b2 := by
      intro v h; rw [← toByte_val b2, ← h]; simp [toByte]
    rw [e0 _ (by omega), e1 _ (by omega), e2 _ (by omega)]
  | case2 b0 b1 =>
    have h0 := b0.isLt
    have h1 := b1.isLt
    simp only [sextets, decodeQuanta]
    rw [shl18_or3 _ _ _ (by omega) (by omega)]
    simp only [Nat.shiftRight_eq_div_pow]
    have e0 : ∀ v, v = b0.val → toByte v = b0 := fun v h => h ▸ toByte_val b0
    have e1 : ∀ v, v % 256 = b1.val → toByte v = b1 := by
      intro v h; rw [← toByte_val b1, ← h]; simp [toByte]
    rw [e0 _ (by omega), e1 _ (by omega)]
  | case3 b0 =>
    have h0 := b0.isLt
    simp only [sextets, decodeQuanta]
    rw [shl18_or2 _ _ (by omega)]
    simp only [Nat.shiftRight_eq_div_pow]
    have e0 : ∀ v, v = b0.val → toByte v = b0 := fun v h => h ▸ toByte_val b0
    rw [e0 _ (by omega)]
  | case4 => rfl

theorem Encode_mem_alphabet (l : Str) : ∀ c ∈ Encode l, c ∈ encodeURL := by
  intro c hc
  rw [Encode_eq_map, List.mem_map] at hc
  obtain ⟨d, hd, rfl⟩ := hc
  exact encChar_mem d (sextets_lt l d hd)

theorem map_decodeMap_encChar (ds : List Nat) (h : ∀ d ∈ ds, d < 64) :
    (ds.map encChar).map decodeMap = ds := by
  induction ds with
  | nil => rfl
  | cons d ds ih =>
    simp only [List.map_cons]
    rw [decodeMap_encChar d (h d (List.mem_cons_self _ _)),
      ih (fun x hx => h x (List.mem_cons_of_mem _ hx))]

theorem DecodeString_Encode (l : Str) : DecodeString (Encode l) = some l := by
  have hf : (Encode l).filter (fun c => c ≠ 10 ∧ c ≠ 13) = Encode l := by
    rw [List.filter_eq_self]
    intro c hc
    have := not_crlf_of_mem c (Encode_mem_alphabet l c hc)
    simpa using this
  have ha : (Encode l).all (fun c => decodeMap c ≠ 255) = true := by
    rw [List.all_eq_true]
    intro c hc
    have := decodeMap_ne_of_mem c (Encode_mem_alphabet l c hc)
    simpa using this
  unfold DecodeString
  simp only [hf, ha, if_true]
  rw [Encode_eq_map, map_decodeMap_encChar _ (sextets_lt l)]
  exact decodeQuanta_sextets l

theorem length_Encode (l : Str) : (Encode l).length = EncodedLen l.length := by
  induction l using sextets.induct with
  | case1 b0 b1 b2 rest ih =>
    simp only [Encode, List.length_cons, ih, EncodedLen]
    omega
  | case2 b0 b1 => simp [Encode, EncodedLen]
  | case3 b0 => simp [Encode, EncodedLen]
  | case4 => rfl

theorem EncodedLen_eq_ceil (n : Nat) : EncodedLen n = (4 * n + 2) / 3 := by
  unfold EncodedLen
  omega

theorem Encode_append (a b : Str) (h : a.length % 3 = 0) :
    Encode (a ++ b) = Encode a ++ Encode b := by
  induction a using sextets.induct with
  | case1 b0 b1 b2 rest ih =>
    have : rest.length % 3 = 0 := by
      simp only [List.length_cons] at h; omega
    have e := ih this
    simp only [List.cons_append, Encode, List.append_eq, e]
  | case2 b0 b1 => simp at h
  | case3 b0 => simp at h
  | case4 => rfl

theorem interior_spec (w p : Str) :
    interior w p =
      (w ++ Encode (p.take (p.length - p.length % 3)), p.drop (p.length - p.length % 3)) := by
  generalize hn : p.length = n
  induction n using Nat.strong_induction_on generalizing w p with
  | _ n ih =>
    subst hn
    rw [interior]
    by_cases hp : p.length ≥ 3
    · rw [dif_pos hp]
      simp only []
      generalize hnn : (if 768 > p.length then p.length - p.length % 3 else 768) = nn
      have hnn3 : nn % 3 = 0 := by
        rw [← hnn]; split <;> omega
      have hnnle : nn ≤ p.length - p.length % 3 := by
        rw [← hnn]; split <;> omega
      have hpos : 0 < nn := by
        rw [← hnn]; split <;> omega
      rw [ih (p.drop nn).length (by rw [List.length_drop]; omega) _ _ rfl]
      have hlen : (List.drop nn p).length - (List.drop nn p).length % 3
          = (p.length - p.length % 3) - nn := by
        rw [List.length_drop]; omega
      rw [hlen]
      have htake : p.take (p.length - p.length % 3)
          = p.take nn ++ (p.drop nn).take ((p.length - p.length % 3) - nn) := by
        have : p.length - p.length % 3 = nn + ((p.length - p.length % 3) - nn) := by omega
        conv_lhs => rw [this]
        rw [List.take_add]
      have hdrop : (p.drop nn).drop ((p.length - p.length % 3) - nn)
          = p.drop (p.length - p.length % 3) := by
        rw [List.drop_drop]; congr 1; omega
      rw [htake, hdrop, Encode_append, List.append_assoc]
      rw [List.length_take]; omega
    · rw [dif_neg hp]
      have : p.length - p.length % 3 = 0 := by omega
      rw [this]; simp [Encode]

theorem NewEncoder_wrote : NewEncoder.Wrote [] :=
  ⟨[], rfl, rfl, rfl, by decide⟩

theorem Write_wrote (e : Encoder) (s p : Str) (h : e.Wrote s) : (e.Write p).Wrote (s ++ p) := by
  obtain ⟨a, hs, ha, hw, hb⟩ := h
  unfold Encoder.Write
  by_cases hbuf : e.buf.length > 0
  · rw [if_pos hbuf]
    simp only []
    by_cases hlt : (e.buf ++ p.take (min p.length (3 - e.buf.length))).length < 3
    · rw [if_pos hlt]
      have hi : min p.length (3 - e.buf.length) = p.length := by
        rw [List.length_append, List.length_take] at hlt; omega
      refine ⟨a, ?_, ha, hw, hlt⟩
      simp only [hi, List.take_length, hs, List.append_assoc]
    · rw [if_neg hlt, interior_spec]
      simp only []
      generalize hi : min p.length (3 - e.buf.length) = i at hlt
      have hlen3 : (e.buf ++ p.take i).length = 3 := by
        rw [List.length_append, List.length_take] at hlt ⊢; omega
      generalize hm : (p.drop i).length - (p.drop i).length % 3 = m
      refine ⟨a ++ (e.buf ++ p.take i) ++ (p.drop i).take m, ?_, ?_, ?_, ?_⟩
      · simp only [hs, List.append_assoc, List.take_append_drop]
      · have : ((p.drop i).take m).length = m := by
          rw [List.length_take]; omega
        rw [List.length_append, List.length_append, hlen3, this]; omega
      · have h3 : (a ++ (e.buf ++ p.take i)).length % 3 = 0 := by
          rw [List.length_append, hlen3]; omega
        show e.w ++ Encode (e.buf ++ p.take i) ++ Encode ((p.drop i).take m) = _
        rw [Encode_append (a ++ (e.buf ++ p.take i)) _ h3, Encode_append a _ ha, hw]
      · show ((p.drop i).drop m).length < 3
        rw [List.length_drop]; omega
  · rw [if_neg hbuf, interior_spec]
    simp only []
    have hnil : e.buf = [] := List.length_eq_zero.mp (by omega)
    generalize hm : p.length - p.length % 3 = m
    refine ⟨a ++ p.take m, ?_, ?_, ?_, ?_⟩
    · simp only [hs, hnil, List.append_nil, List.append_assoc, List.take_append_drop]
    · have : (p.take m).length = m := by
        rw [List.length_take]; omega
      rw [List.length_append, this]; omega
    · show e.w ++ Encode (p.take m) = _
      rw [Encode_append a _ ha, hw]
    · show (p.drop m).length < 3
      rw [List.length_drop]; omega

theorem Close_wrote (e : Encoder) (s : Str) (h : e.Wrote s) : e.Close.w = Encode s := by
  obtain ⟨a, hs, ha, hw, hb⟩ := h
  unfold Encoder.Close
  by_cases hbuf : e.buf.length > 0
  · rw [if_pos hbuf, hs, Encode_append _ _ ha, hw]
  · rw [if_neg hbuf, hs, hw]
    have hnil : e.buf = [] := List.length_eq_zero.mp (by omega)
    rw [hnil, List.append_nil]

theorem foldl_Write_wrote (ps : List Str) (e : Encoder) (s : Str) (h : e.Wrote s) :
    (ps.foldl Encoder.Write e).Wrote (s ++ ps.flatten) := by
  induction ps generalizing e s with
  | nil => simpa using h
  | cons p ps ih =>
    simp only [List.foldl_cons, List.flatten_cons]
    rw [← List.append_assoc]
    exact ih _ _ (Write_wrote e s p h)


theorem writeHeaders_wrote (env : Env) (fl : Flags) :
    (writeHeaders env fl).Wrote ((headerLines env fl).flatten ++ bytes "\r\n") := by
  unfold writeHeaders
  apply Write_wrote
  have := foldl_Write_wrote (headerLines env fl) NewEncoder [] NewEncoder_wrote
  simpa using this

theorem Raw_eq_Encode (env : Env) (fl : Flags) (chunks : List Str) :
    Raw env fl chunks
      = Encode ((headerLines env fl).flatten ++ bytes "\r\n" ++ chunks.flatten) := by
  unfold Raw
  exact Close_wrote _ _ (foldl_Write_wrote chunks _ _ (writeHeaders_wrote env fl))

theorem buildMessage_ret (env : Env) (fl : Flags) (s : Sys) (chunks : List Str)
    (hf : fl.fromEmail ≠ []) (ht : fl.toEmail ≠ [])
    (hb : bodySource env fl = some ⟨chunks, false⟩) :
    (buildMessage env fl s).1 = .ret (Raw env fl chunks) := by
  unfold buildMessage
  rw [if_neg hf, if_neg ht, hb]
  rfl

/-- C1: with non-empty from and to emails and a body source that reads to its
end, in chunks of any sizes (no chunk at all included), the message part of
`main` returns a Raw string whose base64url decoding is exactly the bytes
written to the encoder: the header lines `<name>: <value>` CRLF of the six
entries of the header map in the order the map is visited, one CRLF, and the
body bytes unchanged. -/
theorem C1_decode_raw_is_written (env : Env) (fl : Flags) (s : Sys) (chunks : List Str)
    (hf : fl.fromEmail ≠ []) (ht : fl.toEmail ≠ [])
    (hr : (env.mapRange (header env fl)).Perm (header env fl))
    (hb : bodySource env fl = some ⟨chunks, false⟩) :
    ∃ raw lines,
      (buildMessage env fl s).1 = .ret raw ∧
      lines = (env.mapRange (header env fl)).map
        (fun kv => kv.1 ++ bytes ": " ++ kv.2 ++ bytes "\r\n") ∧
      lines.length = 6 ∧
      DecodeString raw = some (lines.flatten ++ bytes "\r\n" ++ chunks.flatten) := by
  refine ⟨Raw env fl chunks, _, buildMessage_ret env fl s chunks hf ht hb, rfl, ?_, ?_⟩
  · rw [List.length_map, hr.length_eq]; rfl
  · rw [Raw_eq_Encode]
    exact DecodeString_Encode _

/-- C1 at the scenario of the specification, and with an empty body. -/
theorem C1_decode_raw_is_written_witness :
    scenarioFlags.fromEmail ≠ [] ∧ scenarioFlags.toEmail ≠ [] ∧
    (scenarioEnv.mapRange (header scenarioEnv scenarioFlags)).Perm
      (header scenarioEnv scenarioFlags) ∧
    bodySource scenarioEnv scenarioFlags = some ⟨[bytes "hello"], false⟩ ∧
    ∃ raw lines,
      (buildMessage scenarioEnv scenarioFlags emptySys).1 = .ret raw ∧
      lines = (scenarioEnv.mapRange (header scenarioEnv scenarioFlags)).map
        (fun kv => kv.1 ++ bytes ": " ++ kv.2 ++ bytes "\r\n") ∧
      lines.length = 6 ∧
      DecodeString raw = some (lines.flatten ++ bytes "\r\n" ++ [bytes "hello"].flatten) :=
  ⟨by decide, by decide, List.Perm.refl _, rfl,
    C1_decode_raw_is_written scenarioEnv scenarioFlags emptySys [bytes "hello"]
      (by decide) (by decide) (List.Perm.refl _) rfl⟩

/-- C6: the Raw string `main` produces consists of characters of the URL-safe
base64 alphabet only, does not contain the padding character `=`, and has
length `(4 n + 2) / 3`, that is `4 n / 3` rounded up, for the `n` bytes
written to the encoder (the header lines, the CRLF and the body). -/
theorem C6_raw_alphabet_and_length (env : Env) (fl : Flags) (chunks : List Str) :
    (∀ c ∈ Raw env fl chunks, c ∈ bytes
      "ABCDEFGHIJKLMNOPQRSTUVWXYZabcdefghijklmnopqrstuvwxyz0123456789-_") ∧
    (61 : Byte) ∉ Raw env fl chunks ∧
    (Raw env fl chunks).length
      = (4 * ((headerLines env fl).flatten ++ bytes "\r\n" ++ chunks.flatten).length + 2) / 3 := by
  have ha : ∀ c ∈ Raw env fl chunks, c ∈ encodeURL := by
    rw [Raw_eq_Encode]; exact Encode_mem_alphabet _
  refine ⟨ha, ?_, ?_⟩
  · intro h
    have := ha _ h
    revert this
    decide
  · rw [Raw_eq_Encode, length_Encode, EncodedLen_eq_ceil]

/-- C10: the streaming encoder is chunk-independent.  For every sequence of
writes to a new encoder followed by `Close`, the buffer holds the one-shot
unpadded base64url encoding of the concatenation of the written bytes; so the
Raw string of `main`, for every order of the header lines and every division
of the body into chunks, is the encoding of header lines, CRLF and body taken
together.  It is not in general the encoding of the header block followed by
the encoding of the body: in the scenario of the specification the two
differ. -/
theorem C10_streaming_equals_one_shot :
    (∀ ps : List Str, ((ps.foldl Encoder.Write NewEncoder).Close).w = Encode ps.flatten) ∧
    (∀ (env : Env) (fl : Flags) (chunks : List Str),
      Raw env fl chunks
        = Encode ((headerLines env fl).flatten ++ bytes "\r\n" ++ chunks.flatten)) ∧
    Raw scenarioEnv scenarioFlags [bytes "hello"]
      ≠ Encode ((headerLines scenarioEnv scenarioFlags).flatten ++ bytes "\r\n")
          ++ Encode (bytes "hello") := by
  refine ⟨?_, Raw_eq_Encode, ?_⟩
  · intro ps
    have := foldl_Write_wrote ps NewEncoder [] NewEncoder_wrote
    exact Close_wrote _ _ (by simpa using this)
  · rw [Raw_eq_Encode]
    decide

/-- C4: the From header value is the mail-address formatting of the address
whose email is the from-email and whose display name is the from-name, or the
from-email itself when the from-name is empty; likewise for the To header with
the to-name and the to-email.  With Go's formatting, the from-email `a@x.com`
and no from-name give `"a@x.com" <a@x.com>`. -/
theorem C4_from_to_values :
    (∀ (env : Env) (fl : Flags),
      (header env fl).lookup (bytes "From")
        = some (env.addrString
            ⟨if fl.fromName = [] then fl.fromEmail else fl.fromName, fl.fromEmail⟩) ∧
      (header env fl).lookup (bytes "To")
        = some (env.addrString
            ⟨if fl.toName = [] then fl.toEmail else fl.toName, fl.toEmail⟩)) ∧
    (∀ encodedWord : Str → Str,
      goAddressString encodedWord ⟨bytes "a@x.com", bytes "a@x.com"⟩
        = bytes "\"a@x.com\" <a@x.com>") ∧
    (header scenarioEnv scenarioFlags).lookup (bytes "From")
      = some (bytes "\"a@x.com\" <a@x.com>") ∧
    (header scenarioEnv scenarioFlags).lookup (bytes "To")
      = some (bytes "\"b@y.com\" <b@y.com>") := by
  refine ⟨fun env fl => ⟨rfl, rfl⟩, fun _ => rfl, ?_, ?_⟩ <;> decide

/-- C5: when the from-email or the to-email is empty, `main` ends fatally at
the validation and has done no I/O: the state, and with it the record of the
events (opening or reading the body, reading the client secret or the token
file, the console, the exchange, the send), is what it was at the start. -/
theorem C5_empty_email_is_fatal_before_io (env : Env) (fl : Flags) (s : Sys)
    (h : fl.fromEmail = [] ∨ fl.toEmail = []) :
    ∃ msg, main env fl s = (.fatal msg, s) := by
  by_cases hf : fl.fromEmail = []
  · exact ⟨bytes "fromEmail is empty", by simp [main, buildMessage, hf]⟩
  · have ht : fl.toEmail = [] := h.resolve_left hf
    exact ⟨bytes "toEmail is empty", by simp [main, buildMessage, hf, ht]⟩

/-- C5 at the scenario "missing to-email". -/
theorem C5_empty_email_is_fatal_before_io_witness :
    (({ scenarioFlags with toEmail := [] } : Flags).fromEmail = [] ∨
      ({ scenarioFlags with toEmail := [] } : Flags).toEmail = []) ∧
    ∃ msg, main scenarioEnv { scenarioFlags with toEmail := [] } emptySys
      = (.fatal msg, emptySys) :=
  ⟨Or.inr rfl,
    C5_empty_email_is_fatal_before_io scenarioEnv { scenarioFlags with toEmail := [] } emptySys
      (Or.inr rfl)⟩

/-- C7 fails on the code: when the cache file opens and `Encode` returns an
error, `saveToken` returns normally. -/
theorem C7_saveToken_returns_after_failed_encode :
    fullDiskEnv.openWrite (bytes "/dev/full") = true ∧
    (fullDiskEnv.jsonEncode ⟨bytes "t", [], [], []⟩).2 = true ∧
    (saveToken fullDiskEnv (bytes "/dev/full") ⟨bytes "t", [], [], []⟩ emptySys).1
      = .ret () := by
  decide

/-- C8: when `tokenFromFile` fails and then the read of the authorization code
or the exchange fails, `getClient` ends fatally, the files are what they were
and no file was opened for writing. -/
theorem C8_failed_authorization_keeps_token_file (env : Env) (config : Config) (s : Sys)
    (h1 : (tokenFromFile env env.tokFile s).1.2 = true)
    (h2 : env.scan = none ∨ ∃ code, env.scan = some code ∧ env.exchange config code = none) :
    ∃ msg s1, getClient env config s = (.fatal msg, s1) ∧ s1.fs = s.fs ∧
      ∀ p, Event.openWrite p ∈ s1.trace → Event.openWrite p ∈ s.trace := by
  unfold getClient
  simp only [h1, if_true]
  have hfs : (tokenFromFile env env.tokFile s).2.fs = s.fs := by
    unfold tokenFromFile; split <;> rfl
  have htr : (tokenFromFile env env.tokFile s).2.trace = s.trace ++ [.openRead env.tokFile] := by
    unfold tokenFromFile; split <;> rfl
  rcases h2 with h | ⟨code, hc, he⟩
  · simp only [getTokenFromWeb, h]
    refine ⟨_, _, rfl, hfs, ?_⟩
    intro p hp
    simpa [Sys.log, htr] using hp
  · simp only [getTokenFromWeb, hc, he]
    refine ⟨_, _, rfl, hfs, ?_⟩
    intro p hp
    simpa [Sys.log, htr] using hp

/-- C9: `tokenFromFile` leaves the files as they are, and a second call right
after the first returns the same token and the same error status. -/
theorem C9_tokenFromFile_idempotent (env : Env) (file : Str) (s : Sys) :
    (tokenFromFile env file s).2.fs = s.fs ∧
    (tokenFromFile env file (tokenFromFile env file s).2).1 = (tokenFromFile env file s).1 := by
  have hfs : (tokenFromFile env file s).2.fs = s.fs := by
    unfold tokenFromFile; split <;> rfl
  refine ⟨hfs, ?_⟩
  have : ∀ t : Sys, t.fs = s.fs → (tokenFromFile env file t).1 = (tokenFromFile env file s).1 := by
    intro t ht
    unfold tokenFromFile
    rw [ht]
    split <;> rfl
  exact this _ hfs

/-- C8 at the scenario "token file absent, no valid code": the token file is
absent and the read of the authorization code fails. -/
theorem C8_failed_authorization_keeps_token_file_witness :
    (tokenFromFile scenarioEnv scenarioEnv.tokFile emptySys).1.2 = true ∧
    (scenarioEnv.scan = none ∨
      ∃ code, scenarioEnv.scan = some code ∧ scenarioEnv.exchange ⟨[]⟩ code = none) ∧
    ∃ msg s1, getClient scenarioEnv ⟨[]⟩ emptySys = (.fatal msg, s1) ∧ s1.fs = emptySys.fs ∧
      ∀ p, Event.openWrite p ∈ s1.trace → Event.openWrite p ∈ emptySys.trace :=
  ⟨rfl, Or.inl rfl,
    C8_failed_authorization_keeps_token_file scenarioEnv ⟨[]⟩ emptySys rfl (Or.inl rfl)⟩

theorem hasCRLF_cons (c : Byte) (t : Str) (h : hasCRLF (c :: t) = false) :
    hasCRLF t = false ∧ (c = 13 → t.head? ≠ some 10) := by
  cases t with
  | nil => simp [hasCRLF]
  | cons d rest =>
    simp only [hasCRLF, Bool.or_eq_false_iff, decide_eq_false_iff_not] at h
    refine ⟨h.2, ?_⟩
    intro hc
    simp only [List.head?_cons, ne_eq, Option.some.injEq]
    exact fun hd => h.1 ⟨hc, hd⟩

theorem splitBlankLine_skip (c : Byte) (rest : Str)
    (h : c = 13 → rest.take 3 ≠ [10, 13, 10]) :
    splitBlankLine (c :: rest)
      = (splitBlankLine rest).map (fun r => (c :: r.1, r.2)) := by
  rw [splitBlankLine, if_neg]
  intro hp
  have h4 : (c :: rest).take 4 = c :: rest.take 3 := rfl
  rw [h4] at hp
  injection hp with h1 h2
  exact h h1 h2

/-- A line without CR LF in it, then the blank line: the split is there. -/
theorem splitBlankLine_last (t body : Str) (h : hasCRLF t = false) :
    splitBlankLine (t ++ [13, 10, 13, 10] ++ body) = some (t, body) := by
  induction t with
  | nil => simp [splitBlankLine]
  | cons c t ih =>
    obtain ⟨ht, hc⟩ := hasCRLF_cons c t h
    simp only [List.cons_append]
    rw [splitBlankLine_skip, ih ht]
    · rfl
    · intro h13 htake
      cases t with
      | nil => simp at htake
      | cons d t' =>
        simp only [List.cons_append, List.take_succ_cons, List.cons.injEq] at htake
        exact hc h13 (by simp [htake.1])

/-- A line without CR LF in it, its CR LF, and a rest that does not start
with CR LF: the split is in the rest. -/
theorem splitBlankLine_line (t rest : Str) (h : hasCRLF t = false)
    (hrest : rest.take 2 ≠ [13, 10]) :
    splitBlankLine (t ++ [13, 10] ++ rest)
      = (splitBlankLine rest).map (fun r => (t ++ [13, 10] ++ r.1, r.2)) := by
  induction t with
  | nil =>
    simp only [List.nil_append, List.cons_append]
    rw [splitBlankLine_skip, splitBlankLine_skip, Option.map_map]
    · rfl
    · intro h; exact absurd h (by decide)
    · intro _ htake
      apply hrest
      cases rest with
      | nil => simp at htake
      | cons a r =>
        cases r with
        | nil => simp at htake
        | cons b r' =>
          simp only [List.cons_append, List.take_succ_cons, List.cons.injEq] at htake
          simp [htake.2.1, htake.2.2.1]
  | cons c t ih =>
    obtain ⟨ht, hc⟩ := hasCRLF_cons c t h
    simp only [List.cons_append]
    rw [splitBlankLine_skip, ih ht, Option.map_map]
    · rfl
    · intro h13 htake
      cases t with
      | nil => simp at htake
      | cons d t' =>
        simp only [List.cons_append, List.take_succ_cons, List.cons.injEq] at htake
        exact hc h13 (by simp [htake.1])

theorem splitCRLF_skip (c : Byte) (s : Str) (hs : s ≠ [])
    (h : c = 13 → s.head? ≠ some 10) :
    splitCRLF (c :: s)
      = match splitCRLF s with
        | l :: ls => (c :: l) :: ls
        | [] => [[c]] := by
  cases s with
  | nil => exact absurd rfl hs
  | cons d rest =>
    rw [splitCRLF, if_neg]
    rintro ⟨h1, h2⟩
    exact h h1 (by simp [h2])

theorem splitCRLF_single (t : Str) (h : hasCRLF t = false) : splitCRLF t = [t] := by
  induction t with
  | nil => rfl
  | cons c t ih =>
    obtain ⟨ht, hc⟩ := hasCRLF_cons c t h
    cases t with
    | nil => rfl
    | cons d r =>
      rw [splitCRLF_skip c (d :: r) (by simp) hc, ih ht]

theorem splitCRLF_line (t rest : Str) (h : hasCRLF t = false) :
    splitCRLF (t ++ [13, 10] ++ rest) = t :: splitCRLF rest := by
  induction t with
  | nil =>
    simp only [List.nil_append, List.cons_append]
    rw [splitCRLF, if_pos ⟨rfl, rfl⟩]
  | cons c t ih =>
    obtain ⟨ht, hc⟩ := hasCRLF_cons c t h
    simp only [List.cons_append]
    rw [splitCRLF_skip c _ (by simp), ih ht]
    intro h13
    cases t with
    | nil => simp
    | cons d t' => simpa using hc h13

theorem splitColon_line (k v : Str) (hk : ∀ c ∈ k, c ≠ 58) :
    splitColon (k ++ [58, 32] ++ v) = some (k, v) := by
  induction k with
  | nil =>
    simp only [List.nil_append, List.cons_append]
    rw [splitColon, if_pos ⟨rfl, rfl⟩]
  | cons c k ih =>
    have hc : c ≠ 58 := hk c (List.mem_cons_self _ _)
    have ih1 := ih (fun x hx => hk x (List.mem_cons_of_mem _ hx))
    cases k with
    | nil =>
      simp only [List.nil_append, List.cons_append] at ih1 ⊢
      rw [splitColon, if_neg (fun h => hc h.1), ih1]
      rfl
    | cons d k' =>
      simp only [List.cons_append] at ih1 ⊢
      rw [splitColon, if_neg (fun h => hc h.1), ih1]
      rfl

theorem hasCRLF_append_left (k s : Str) (hk : ∀ c ∈ k, c ≠ 13) :
    hasCRLF (k ++ s) = hasCRLF s := by
  induction k with
  | nil => rfl
  | cons c k ih =>
    have hc : c ≠ 13 := hk c (List.mem_cons_self _ _)
    have ih1 := ih (fun x hx => hk x (List.mem_cons_of_mem _ hx))
    rw [← ih1]
    cases hks : k ++ s with
    | nil => simp [hks, hasCRLF]
    | cons d r =>
      simp only [List.cons_append, hks, hasCRLF, hc, false_and, decide_False, Bool.false_or]

theorem take2_line (t x : Str) (hne : t ≠ []) (h : hasCRLF t = false) :
    (t ++ [13, 10] ++ x).take 2 ≠ [13, 10] := by
  cases t with
  | nil => exact absurd rfl hne
  | cons c t =>
    cases t with
    | nil => simp
    | cons d r =>
      simp only [hasCRLF, Bool.or_eq_false_iff, decide_eq_false_iff_not] at h
      simp only [List.cons_append, List.take_succ_cons, List.take_zero, ne_eq, List.cons.injEq,
        and_true]
      exact h.1

/-- Lines without CR LF in them, none empty, each followed by CR LF, then the
blank line and a body: the first blank line is the one before the body, and
the block before it splits at CR LF into the lines. -/
theorem split_message (ts : List Str) (body : Str) (hne : ts ≠ [])
    (h : ∀ t ∈ ts, t ≠ [] ∧ hasCRLF t = false) :
    ∃ block,
      splitBlankLine ((ts.map (fun t => t ++ [13, 10])).flatten ++ [13, 10] ++ body)
        = some (block, body) ∧
      splitCRLF block = ts := by
  induction ts with
  | nil => exact absurd rfl hne
  | cons t ts ih =>
    have ht := h t (List.mem_cons_self _ _)
    cases ts with
    | nil =>
      refine ⟨t, ?_, splitCRLF_single t ht.2⟩
      have := splitBlankLine_last t body ht.2
      simpa using this
    | cons t2 ts2 =>
      obtain ⟨block, hb, hl⟩ := ih (by simp) (fun x hx => h x (List.mem_cons_of_mem _ hx))
      have ht2 := h t2 (List.mem_cons_of_mem _ (List.mem_cons_self _ _))
      refine ⟨t ++ [13, 10] ++ block, ?_, ?_⟩
      · have e : ((t :: t2 :: ts2).map (fun t => t ++ [13, 10])).flatten ++ [13, 10] ++ body
            = t ++ [13, 10] ++ (((t2 :: ts2).map (fun t => t ++ [13, 10])).flatten
                ++ [13, 10] ++ body) := by
          simp [List.append_assoc]
        have hrest : (((t2 :: ts2).map (fun t => t ++ [13, 10])).flatten
            ++ [13, 10] ++ body).take 2 ≠ [13, 10] := by
          have := take2_line t2
            ((ts2.map (fun t => t ++ [13, 10])).flatten ++ [13, 10] ++ body) ht2.1 ht2.2
          simpa [List.append_assoc] using this
        rw [e, splitBlankLine_line t _ ht.2 hrest, hb]
        rfl
      · rw [splitCRLF_line t block ht.2, hl]

theorem header_keys_ok (env : Env) (fl : Flags) :
    ∀ kv ∈ header env fl, (∀ c ∈ kv.1, c ≠ 13) ∧ (∀ c ∈ kv.1, c ≠ 58) := by
  intro kv hkv
  have hmem : kv.1 ∈ (header env fl).map Prod.fst := List.mem_map_of_mem _ hkv
  have hk : (header env fl).map Prod.fst
      = [bytes "From", bytes "To", bytes "MIME-Version", bytes "Content-Type",
         bytes "Content-Transfer-Encoding", bytes "Subject"] := rfl
  rw [hk] at hmem
  have hall : ∀ k ∈ [bytes "From", bytes "To", bytes "MIME-Version", bytes "Content-Type",
      bytes "Content-Transfer-Encoding", bytes "Subject"],
      (∀ c ∈ k, c ≠ 13) ∧ (∀ c ∈ k, c ≠ 58) := by decide
  exact hall kv.1 hmem

theorem hasCRLF_colon_space (v : Str) : hasCRLF ([58, 32] ++ v) = hasCRLF v := by
  cases v with
  | nil => rfl
  | cons d r => simp [hasCRLF]

theorem headerLine_eq (kv : Str × Str) :
    headerLine kv = (kv.1 ++ [58, 32] ++ kv.2) ++ [13, 10] := rfl

/-- C2, as the code has it: when no value of the header map (the formatted
From and To addresses, the subject, the three fixed values) contains a CR LF,
the decoded Raw string splits at its first blank line into a header block and
the body; the block, split into lines at CR LF and each line at its first
colon and space, is the six entries of the header map with their values, in
the order written; the part after the blank line is the input body. -/
theorem C2_split_at_first_blank_line (env : Env) (fl : Flags) (chunks : List Str)
    (hr : (env.mapRange (header env fl)).Perm (header env fl))
    (hv : ∀ kv ∈ header env fl, hasCRLF kv.2 = false) :
    ∃ (msg block : Str) (entries : List (Str × Str)),
      DecodeString (Raw env fl chunks) = some msg ∧
      splitBlankLine msg = some (block, chunks.flatten) ∧
      (splitCRLF block).map splitColon = entries.map some ∧
      entries.Perm (header env fl) := by
  have hes_ne : env.mapRange (header env fl) ≠ [] := by
    intro h
    have := hr.length_eq
    rw [h] at this
    simp [header] at this
  have hall : ∀ t ∈ (env.mapRange (header env fl)).map (fun kv => kv.1 ++ [58, 32] ++ kv.2),
      t ≠ [] ∧ hasCRLF t = false := by
    intro t ht
    obtain ⟨kv, hkv, rfl⟩ := List.mem_map.mp ht
    have hmem : kv ∈ header env fl := hr.subset hkv
    refine ⟨by simp, ?_⟩
    rw [List.append_assoc, hasCRLF_append_left _ _ (header_keys_ok env fl kv hmem).1,
      hasCRLF_colon_space]
    exact hv kv hmem
  obtain ⟨block, hb, hl⟩ := split_message _ chunks.flatten (by simpa using hes_ne) hall
  refine ⟨(headerLines env fl).flatten ++ bytes "\r\n" ++ chunks.flatten, block,
    env.mapRange (header env fl), ?_, ?_, ?_, hr⟩
  · rw [Raw_eq_Encode]
    exact DecodeString_Encode _
  · have e : headerLines env fl
        = ((env.mapRange (header env fl)).map (fun kv => kv.1 ++ [58, 32] ++ kv.2)).map
            (fun t => t ++ [13, 10]) := by
      rw [List.map_map]; rfl
    rw [e]
    exact hb
  · rw [hl, List.map_map]
    apply List.map_congr_left
    intro kv hkv
    exact splitColon_line kv.1 kv.2 (header_keys_ok env fl kv (hr.subset hkv)).2

/-- C2 at the scenario of the specification. -/
theorem C2_split_at_first_blank_line_witness :
    (scenarioEnv.mapRange (header scenarioEnv scenarioFlags)).Perm
      (header scenarioEnv scenarioFlags) ∧
    (∀ kv ∈ header scenarioEnv scenarioFlags, hasCRLF kv.2 = false) ∧
    ∃ (msg block : Str) (entries : List (Str × Str)),
      DecodeString (Raw scenarioEnv scenarioFlags [bytes "hello"]) = some msg ∧
      splitBlankLine msg = some (block, [bytes "hello"].flatten) ∧
      (splitCRLF block).map splitColon = entries.map some ∧
      entries.Perm (header scenarioEnv scenarioFlags) :=
  ⟨List.Perm.refl _, by decide,
    C2_split_at_first_blank_line scenarioEnv scenarioFlags [bytes "hello"]
      (List.Perm.refl _) (by decide)⟩

/-- C2 as stated fails: with the subject `Hi` CR LF CR LF `X` and the body
`hello`, the part of the decoded Raw string after its first blank line is
`X` CR LF CR LF `hello`, not the body. -/
theorem C2_blank_line_in_subject_counterexample :
    ((DecodeString (Raw scenarioEnv blankLineFlags [bytes "hello"])).bind splitBlankLine).map
        Prod.snd = some (bytes "X\r\n\r\nhello") ∧
    ((DecodeString (Raw scenarioEnv blankLineFlags [bytes "hello"])).bind splitBlankLine).map
        Prod.snd ≠ some ([bytes "hello"].flatten) := by
  rw [Raw_eq_Encode, DecodeString_Encode]
  decide

theorem splitCRLF_lines (ts : List Str) (h : ∀ t ∈ ts, hasCRLF t = false) :
    splitCRLF ((ts.map (fun t => t ++ [13, 10])).flatten) = ts ++ [[]] := by
  induction ts with
  | nil => rfl
  | cons t ts ih =>
    have e : (((t :: ts).map (fun t => t ++ [13, 10])).flatten)
        = t ++ [13, 10] ++ (ts.map (fun t => t ++ [13, 10])).flatten := by
      simp [List.append_assoc]
    rw [e, splitCRLF_line t _ (h t (List.mem_cons_self _ _)),
      ih (fun x hx => h x (List.mem_cons_of_mem _ hx))]
    rfl

theorem filterMap_map_of_some {α β : Type} (f : β → Option α) (g : α → β) (l : List α)
    (h : ∀ x ∈ l, f (g x) = some x) : (l.map g).filterMap f = l := by
  induction l with
  | nil => rfl
  | cons x l ih =>
    rw [List.map_cons, List.filterMap_cons, h x (List.mem_cons_self _ _),
      ih (fun y hy => h y (List.mem_cons_of_mem _ hy))]

theorem hasCRLF_entry (env : Env) (fl : Flags) (kv : Str × Str) (hmem : kv ∈ header env fl)
    (hv : hasCRLF kv.2 = false) : hasCRLF (kv.1 ++ [58, 32] ++ kv.2) = false := by
  rw [List.append_assoc, hasCRLF_append_left _ _ (header_keys_ok env fl kv hmem).1,
    hasCRLF_colon_space]
  exact hv

/-- C3, as the code has it: the header map has exactly the six keys From, To,
MIME-Version, Content-Type, Content-Transfer-Encoding and Subject, all
different; MIME-Version has the value `1.0`, Content-Type the value
`text/plain; charset="utf-8"` (the charset between double quotes),
Content-Transfer-Encoding the value `base64` and Subject the value of the
subject flag; one header line is written for each entry.  When no value of
the map contains a CR LF, each key appears exactly once in the written header
block: the bytes written by the loop, split at every CR LF, are the lines
`<name>: <value>` of the entries in the order visited and an empty rest, each
line splits at its first colon and space into its entry, and the names of the
lines are the six keys, each exactly once. -/
theorem C3_header_entries (env : Env) (fl : Flags)
    (hr : (env.mapRange (header env fl)).Perm (header env fl)) :
    ((header env fl).map Prod.fst
      = [bytes "From", bytes "To", bytes "MIME-Version", bytes "Content-Type",
         bytes "Content-Transfer-Encoding", bytes "Subject"] ∧
     ((header env fl).map Prod.fst).Nodup ∧
     (header env fl).lookup (bytes "MIME-Version") = some (bytes "1.0") ∧
     (header env fl).lookup (bytes "Content-Type")
       = some (bytes "text/plain; charset=\"utf-8\"") ∧
     (header env fl).lookup (bytes "Content-Transfer-Encoding") = some (bytes "base64") ∧
     (header env fl).lookup (bytes "Subject") = some fl.subject ∧
     (headerLines env fl).Perm ((header env fl).map headerLine)) ∧
    ((∀ kv ∈ header env fl, hasCRLF kv.2 = false) →
      splitCRLF (headerLines env fl).flatten
        = (env.mapRange (header env fl)).map (fun kv => kv.1 ++ bytes ": " ++ kv.2) ++ [[]] ∧
      (∀ kv ∈ env.mapRange (header env fl),
        splitColon (kv.1 ++ bytes ": " ++ kv.2) = some kv) ∧
      (((splitCRLF (headerLines env fl).flatten).filterMap splitColon).map Prod.fst).Perm
        [bytes "From", bytes "To", bytes "MIME-Version", bytes "Content-Type",
         bytes "Content-Transfer-Encoding", bytes "Subject"] ∧
      (((splitCRLF (headerLines env fl).flatten).filterMap splitColon).map Prod.fst).Nodup) := by
  have hk : (header env fl).map Prod.fst
      = [bytes "From", bytes "To", bytes "MIME-Version", bytes "Content-Type",
         bytes "Content-Transfer-Encoding", bytes "Subject"] := rfl
  have hn : ((header env fl).map Prod.fst).Nodup := by rw [hk]; decide
  refine ⟨⟨hk, hn, rfl, rfl, rfl, rfl, hr.map _⟩, ?_⟩
  intro hv
  have hsplit : splitCRLF (headerLines env fl).flatten
      = (env.mapRange (header env fl)).map (fun kv => kv.1 ++ bytes ": " ++ kv.2) ++ [[]] := by
    have e : headerLines env fl
        = ((env.mapRange (header env fl)).map (fun kv => kv.1 ++ [58, 32] ++ kv.2)).map
            (fun t => t ++ [13, 10]) := by
      rw [List.map_map]; rfl
    rw [e, splitCRLF_lines]
    · rfl
    · intro t ht
      obtain ⟨kv, hkv, rfl⟩ := List.mem_map.mp ht
      exact hasCRLF_entry env fl kv (hr.subset hkv) (hv kv (hr.subset hkv))
  have hcolon : ∀ kv ∈ env.mapRange (header env fl),
      splitColon (kv.1 ++ bytes ": " ++ kv.2) = some kv := by
    intro kv hkv
    exact splitColon_line kv.1 kv.2 (header_keys_ok env fl kv (hr.subset hkv)).2
  have hparsed : (splitCRLF (headerLines env fl).flatten).filterMap splitColon
      = env.mapRange (header env fl) := by
    rw [hsplit, List.filterMap_append, filterMap_map_of_some _ _ _ hcolon]
    simp [splitColon]
  refine ⟨hsplit, hcolon, ?_, ?_⟩
  · rw [hparsed]; exact hk ▸ hr.map Prod.fst
  · rw [hparsed]; exact (hr.map Prod.fst).nodup_iff.mpr hn

/-- C3 at the scenario of the specification. -/
theorem C3_header_entries_witness :
    (scenarioEnv.mapRange (header scenarioEnv scenarioFlags)).Perm
      (header scenarioEnv scenarioFlags) ∧
    (∀ kv ∈ header scenarioEnv scenarioFlags, hasCRLF kv.2 = false) ∧
    (header scenarioEnv scenarioFlags).lookup (bytes "Content-Type")
      = some (bytes "text/plain; charset=\"utf-8\"") ∧
    (((splitCRLF (headerLines scenarioEnv scenarioFlags).flatten).filterMap splitColon).map
        Prod.fst).Perm
      [bytes "From", bytes "To", bytes "MIME-Version", bytes "Content-Type",
       bytes "Content-Transfer-Encoding", bytes "Subject"] ∧
    (((splitCRLF (headerLines scenarioEnv scenarioFlags).flatten).filterMap splitColon).map
        Prod.fst).Nodup :=
  ⟨List.Perm.refl _, by decide,
    (C3_header_entries scenarioEnv scenarioFlags (List.Perm.refl _)).1.2.2.2.1,
    ((C3_header_entries scenarioEnv scenarioFlags (List.Perm.refl _)).2 (by decide)).2.2.1,
    ((C3_header_entries scenarioEnv scenarioFlags (List.Perm.refl _)).2 (by decide)).2.2.2⟩

/-- C3 as stated fails twice.  In the scenario of the specification the
Content-Type entry of the header map is not `text/plain; charset=utf-8`, and
no written header line is `Content-Type: text/plain; charset=utf-8`.  With
the subject `Hi` CR LF `From: evil@z.com` the written header block has two
lines named From. -/
theorem C3_as_stated_counterexample :
    (header scenarioEnv scenarioFlags).lookup (bytes "Content-Type")
      ≠ some (bytes "text/plain; charset=utf-8") ∧
    bytes "Content-Type: text/plain; charset=utf-8\r\n"
      ∉ headerLines scenarioEnv scenarioFlags ∧
    ((((splitCRLF (headerLines scenarioEnv injectedFromFlags).flatten).filterMap
        splitColon).map Prod.fst).filter (fun k => k = bytes "From")).length = 2 := by
  decide

end GmailCli
